import Mathlib

/-!
Verification of the MCTS search engine of the reasoning optimizer
(src/docetl/mcts/mcts.py) and of the chaining validation schema
(src/docetl/reasoning_optimizer/instantiate_schemas.py), by a shallow
embedding of those modules into Lean.

The Node and ParetoFrontier classes imported by mcts.py are not part of the
sources; where a definition depends on them it is modelled from the spec and
its doc comment says so.  Every other definition is translated directly from
the Python source it names.
-/

namespace DocetlMCTS

/-! Python exceptions raised by MCTS.expand and caught (or not) by
MCTS.mcts_iteration.  The source raises RuntimeError for the two exhaustion /
instantiation failures and ValueError for an unknown directive name;
mcts_iteration catches only RuntimeError. -/

inductive PyError where
  | runtimeError (msg : String) : PyError
  | valueError (msg : String) : PyError
deriving DecidableEq

/-- Optimization goal of one expansion attempt: the string literals
"acc" and "cost" in MCTS.expand / MCTS.mcts_iteration. -/
inductive Goal where
  | acc : Goal
  | cost : Goal
deriving DecidableEq

def goalTag : Goal → String
  | .acc => "acc"
  | .cost => "cost"

/-! Tree references and backpropagation (MCTS.backpropagate, mcts.py lines
523-538).  A tree node is identified by its path from the root, which makes
the parent back-reference (`Node.parent`, an Optional reference used only for
upward traversal) structurally well-founded. -/

inductive NodeRef where
  | root : NodeRef
  | child (parent : NodeRef) (idx : Nat) : NodeRef
deriving DecidableEq

def NodeRef.depth : NodeRef → Nat
  | .root => 0
  | .child p _ => p.depth + 1

/-- The sequence of nodes visited by `current = node; while current is not
None: ...; current = current.parent`: the node itself followed by its
ancestors up to the root. -/
def NodeRef.chain : NodeRef → List NodeRef
  | .root => [.root]
  | .child p i => .child p i :: p.chain

/-- The per-node mutable counters of the tree: Node.value (accumulated value)
and Node.visits, read off as total maps over node identities. -/
structure TreeState where
  value : NodeRef → Int
  visits : NodeRef → Nat

/-- Modelled from the spec: Node.update_value (Node.py is not among the
sources).  Spec sections 3 and 8: the accumulated value is a running sum, so
an update adds the delta to the node's value. -/
def updateValue (s : TreeState) (n : NodeRef) (d : Int) : TreeState :=
  { s with value := fun m => if m = n then s.value m + d else s.value m }

/-- Modelled from the spec: Node.update_visit (Node.py is not among the
sources).  Spec sections 3 and 8: visits counts simulation events whose path
passed through the node, so an update increments the count by one. -/
def updateVisit (s : TreeState) (n : NodeRef) : TreeState :=
  { s with visits := fun m => if m = n then s.visits m + 1 else s.visits m }

/-- The first while loop of MCTS.backpropagate: update_value on the node and
on every ancestor up to the root. -/
def updateValueChain : TreeState → NodeRef → Int → TreeState
  | s, .root, d => updateValue s .root d
  | s, .child p i, d => updateValueChain (updateValue s (.child p i) d) p d

/-- The second while loop of MCTS.backpropagate: update_visit on the node and
on every ancestor up to the root. -/
def updateVisitChain : TreeState → NodeRef → TreeState
  | s, .root => updateVisit s .root
  | s, .child p i => updateVisitChain (updateVisit s (.child p i)) p

/-- MCTS.backpropagate (mcts.py lines 523-538): for every (node, val) item of
the affected-nodes map, walk the parent chain adding val, then walk the parent
chain of the simulated node incrementing visits.  The Python dict of affected
nodes is embedded as an association list in iteration order. -/
def backpropagate (s : TreeState) (affected : List (NodeRef × Int))
    (visitNode : NodeRef) : TreeState :=
  updateVisitChain (affected.foldl (fun st p => updateValueChain st p.1 p.2) s)
    visitNode

/-- Total value contribution that the affected list owes to node m: the sum of
the deltas of the pairs whose node has m on its parent chain. -/
def chainDelta (m : NodeRef) : List (NodeRef × Int) → Int
  | [] => 0
  | (n, d) :: rest => (if m ∈ n.chain then d else 0) + chainDelta m rest

/-! Pipeline configuration data (the parsed YAML dictionaries manipulated by
MCTS.update_pipeline, MCTS.fix_models_azure and MCTS.expand).  Only the keys
the search engine reads or writes are modelled; an operation's name and model
keys are optional because the source guards them with `"name" in op` /
`key == "model"` checks. -/

structure Operation where
  name : Option String
  model : Option String
deriving DecidableEq

structure Step where
  name : String
  operations : Option (List String)
deriving DecidableEq

structure Config where
  operations : List Operation
  steps : List Step
  default_model : Option String
  bypass_cache : Bool
  outputPath : String
deriving DecidableEq

/-- The list comprehension `[op.get("name") for op in new_ops_list if "name" in op]`
of MCTS.update_pipeline. -/
def opNamesOf (newOpsList : List Operation) : List String :=
  newOpsList.filterMap (fun op => op.name)

/-- The inner loop of MCTS.update_pipeline: rebuild a step's operations list,
extending it with the new op names at each occurrence of the first target op
and appending nothing for any other reference. -/
def buildNewOps (target0 : String) (opNames : List String) :
    List String → List String
  | [] => []
  | op :: rest =>
      (if op = target0 then opNames else []) ++ buildNewOps target0 opNames rest

/-- MCTS.update_pipeline (mcts.py lines 185-210).  `target0` is
`target_ops[0]`, the only element of the target list the source ever reads
(expand always calls this with the oracle's non-empty target list).  Steps
without an "operations" key are left alone. -/
def update_pipeline (cfg : Config) (newOpsList : List Operation)
    (target0 : String) : Config :=
  { cfg with
    steps := cfg.steps.map (fun s =>
      match s.operations with
      | none => s
      | some ops =>
          { s with operations := some (buildNewOps target0 (opNamesOf newOpsList) ops) }) }

/-- The rewrite applied to each value found under a "model" key by
MCTS.fix_models_azure. -/
def fixModelValue (v : String) : String :=
  if v.startsWith "azure" then v else "azure/" ++ v

/-- MCTS.fix_models_azure (mcts.py lines 212-225): the traversal rewrites
every string value stored under a key literally named "model"; in this data
model those are the per-operation model fields (the top-level key is
"default_model", not "model", so it is not rewritten). -/
def fix_models_azure (cfg : Config) : Config :=
  { cfg with
    operations := cfg.operations.map (fun op => { op with model := op.model.map fixModelValue }) }

/-! Per-node action bookkeeping.  Modelled from the spec: Node.py is not among
the sources.  Spec section 3: a node carries two mappings, from operator name
to the set of directive identifiers already applied to that operator for that
goal; spec section 4.1: mark_action_used records usage idempotently.  The maps
are keyed by Option String because the source indexes them with
`op.get("name")`, which may be None. -/

structure Bookkeeping where
  usedAcc : Option String → Finset String
  usedCost : Option String → Finset String

def emptyBook : Bookkeeping := ⟨fun _ => ∅, fun _ => ∅⟩

/-- Modelled from the spec: Node.mark_action_used_acc records the directive
in the accuracy-goal set of the named operator (idempotent set insertion). -/
def markAcc (b : Bookkeeping) (op directive : String) : Bookkeeping :=
  { b with usedAcc := fun o => if o = some op then insert directive (b.usedAcc o) else b.usedAcc o }

/-- Modelled from the spec: Node.mark_action_used_cost records the directive
in the cost-goal set of the named operator (idempotent set insertion). -/
def markCost (b : Bookkeeping) (op directive : String) : Bookkeeping :=
  { b with usedCost := fun o => if o = some op then insert directive (b.usedCost o) else b.usedCost o }

/-- The coupled-bookkeeping block of MCTS.expand (mcts.py lines 491-503),
applied to the freshly created child: the gleaning (iterative refinement)
directive additionally marks "chaining" as used for the accuracy goal on each
target operator, and "change model" marks itself as used for both goals on
each target operator. -/
def coupledBookkeeping (directiveName : String) (targetOps : List String)
    (childBook : Bookkeeping) : Bookkeeping :=
  if directiveName = "gleaning" then
    targetOps.foldl (fun b op => markAcc b op "chaining") childBook
  else if directiveName = "change model" then
    targetOps.foldl (fun b op => markCost (markAcc b op "change model") op "change model") childBook
  else childBook

/-- The view of a tree node that MCTS.expand and MCTS.is_fully_explored read
and write: its YAML path, its parsed plan, its bookkeeping and its number of
children. -/
structure NodeState where
  yamlFilePath : String
  parsedYaml : Config
  book : Bookkeeping
  childrenCount : Nat

/-- The mark-action-used loop of MCTS.expand (lines 444-449): mark the chosen
directive as used for the chosen goal on each target operator of the current
node. -/
def bookMarkTargets (g : Goal) (b : Bookkeeping) (targetOps : List String)
    (directiveName : String) : Bookkeeping :=
  match g with
  | .acc => targetOps.foldl (fun b op => markAcc b op directiveName) b
  | .cost => targetOps.foldl (fun b op => markCost b op directiveName) b

def markTargets (g : Goal) (n : NodeState) (targetOps : List String)
    (directiveName : String) : NodeState :=
  { n with book := bookMarkTargets g n.book targetOps directiveName }

/-- A freshly created child node: MCTS.expand builds it from the new YAML
path and the transformed plan; its bookkeeping starts empty and then receives
the coupled marks. -/
structure ChildNode where
  yamlFilePath : String
  parsedYaml : Config
  book : Bookkeeping

def String.removeYamlSuffix (p : String) : String :=
  if p.endsWith ".yaml" then p.dropRight 5 else p

def exhaustedMsg : String :=
  "No applicable action found for expansion. Action space may be exhausted or all actions are inapplicable."

def unknownDirectiveMsg (directiveName : String) : String :=
  "Unknown directive name: " ++ directiveName

def instantiateFailedMsg : String :=
  "Failed to instantiate directive: no new ops list returned."

/-- MCTS.expand (mcts.py lines 356-506) as a state transformer on the
expanded node, with its external dependencies passed in as data: `menuEmpty`
is whether the goal's candidate menu came out empty (lines 384/403),
`directiveName` and `targetOps` are the oracle's parsed reply, and
`instResult` is what directive.instantiate returned (None on failure; the
spec's catalog contract makes instantiate side-effect free on its inputs).
The first component of the result is the expanded node after the call — the
source mutates it in place, so marks applied before a raise survive the
raise — and the second is the created child or the raised exception. -/
def expand (catalog : List String) (node : NodeState) (g : Goal)
    (menuEmpty : Bool) (directiveName : String) (targetOps : List String)
    (instResult : Option (List Operation)) : NodeState × Except PyError ChildNode :=
  if menuEmpty then
    (node, .error (.runtimeError exhaustedMsg))
  else if directiveName ∈ catalog then
    let node1 := markTargets g node targetOps directiveName
    match instResult with
    | none => (node1, .error (.runtimeError instantiateFailedMsg))
    | some newOpsList =>
        let target0 := targetOps.headD ""
        let cfg0 : Config :=
          { node1.parsedYaml with operations := newOpsList, bypass_cache := true }
        let cfg1 := fix_models_azure (update_pipeline cfg0 newOpsList target0)
        let base := String.removeYamlSuffix node1.yamlFilePath
        let ordinal := toString (node1.childrenCount + 1)
        let childCfg := { cfg1 with outputPath := base ++ "_" ++ ordinal ++ ".json" }
        let child : ChildNode :=
          { yamlFilePath := base ++ "_" ++ ordinal ++ "_" ++ goalTag g ++ ".yaml",
            parsedYaml := childCfg,
            book := coupledBookkeeping directiveName targetOps emptyBook }
        ({ node1 with childrenCount := node1.childrenCount + 1 }, .ok child)
  else
    (node, .error (.valueError (unknownDirectiveMsg directiveName)))

/-- The per-operator loop of MCTS.is_fully_explored (lines 230-235): early
return False when some operator has fewer than 3 distinct accuracy directives
or fewer than 1 distinct cost directive used. -/
def opsFullyExplored (b : Bookkeeping) : List Operation → Bool
  | [] => true
  | op :: rest =>
      if (b.usedAcc op.name).card < 3 then false
      else if (b.usedCost op.name).card < 1 then false
      else opsFullyExplored b rest

/-- MCTS.is_fully_explored (mcts.py lines 227-236). -/
def is_fully_explored (expansionCount : Nat) (n : NodeState) : Bool :=
  if expansionCount ≤ n.childrenCount then true
  else opsFullyExplored n.book n.parsedYaml.operations

/-! The exception handling of MCTS.mcts_iteration (mcts.py lines 117-162):
each goal's expand call sits in a `try ... except RuntimeError` that clears
the goal's has_leaf flag; any other exception propagates out of the
iteration.  Each goal whose expansion succeeded is then simulated and
backpropagated, accuracy first. -/

def handleTry {α : Type} : Except PyError α → Except PyError (Option α)
  | .ok a => .ok (some a)
  | .error (.runtimeError _) => .ok none
  | .error (.valueError m) => .error (.valueError m)

/-- MCTS.mcts_iteration, with the two expand outcomes passed in as data:
returns the list of children that get simulated and backpropagated (in
order), or the exception that escapes the iteration. -/
def mctsIteration {α : Type} (accResult costResult : Except PyError α) :
    Except PyError (List α) :=
  match handleTry accResult with
  | .error e => .error e
  | .ok accChild =>
      match handleTry costResult with
      | .error e => .error e
      | .ok costChild => .ok (accChild.toList ++ costChild.toList)

/-- The `while self.should_continue(): self.mcts_iteration()` loop of
MCTS.search, with each planned iteration's expand outcomes passed in as data:
counts the iterations that complete, stopping with the exception of the first
iteration that raises. -/
def runIterations {α : Type} :
    List (Except PyError α × Except PyError α) → Except PyError Nat
  | [] => .ok 0
  | (a, c) :: rest =>
      match mctsIteration a c with
      | .error e => .error e
      | .ok _ =>
          match runIterations rest with
          | .error e => .error e
          | .ok n => .ok (n + 1)

/-! Termination policy (MCTS.should_continue, mcts.py lines 540-548, and the
configuration fields set in MCTS.__init__). -/

structure SearchBudget where
  iterationCount : Nat
  maxIterations : Nat
  maxTime : Option ℚ
  startTime : ℚ
deriving DecidableEq

/-- MCTS.should_continue (mcts.py lines 540-548).  `now` is the value
time.time() would return; the source's wall-clock test against
startTime and maxTime is commented out, so the body reads only the iteration
counter. -/
def should_continue (s : SearchBudget) (now : ℚ) : Bool :=
  if s.iterationCount ≥ s.maxIterations then false else true

/-! The chaining validation schema
(src/docetl/reasoning_optimizer/instantiate_schemas.py, lines 71-105). -/

structure MapOpConfig where
  name : String
  prompt : String
  output_keys : List String
  model : String
deriving DecidableEq

def lbrace : Char := '\x7b'
def rbrace : Char := '\x7d'

/-- The character class matched by the regex token for whitespace in the
source patterns. -/
def isSpaceChar (c : Char) : Bool :=
  c = ' ' || c = '\t' || c = '\n' || c = '\r' || c = '\x0c' || c = '\x0b'

/-- Match a literal character list at the front of the input, returning the
rest on success. -/
def stripLit : List Char → List Char → Option (List Char)
  | [], s => some s
  | _ :: _, [] => none
  | c :: cs, x :: xs => if x = c then stripLit cs xs else none

/-- Match, at this exact position, the pattern of validate_chain: two open
braces, optional whitespace, the literal "input.", the (regex-escaped, hence
literal) key, optional whitespace, two close braces.  The greedy whitespace
runs are deterministic because neither "input." nor a closing brace starts
with a whitespace character. -/
def matchKeyAt (key : List Char) (s : List Char) : Bool :=
  (stripLit [lbrace, lbrace] s |>.bind (fun s1 =>
    stripLit "input.".toList (s1.dropWhile isSpaceChar) |>.bind (fun s2 =>
      stripLit key s2 |>.bind (fun s3 =>
        stripLit [rbrace, rbrace] (s3.dropWhile isSpaceChar))))).isSome

/-- The unanchored search of re.search: try the pattern at every position.
The pattern always consumes at least the two open braces, so it cannot match
the empty suffix. -/
def searchKey (key : List Char) : List Char → Bool
  | [] => false
  | c :: rest => matchKeyAt key (c :: rest) || searchKey key rest

/-- Whether re.search finds the input-key pattern for `key` in `prompt`. -/
def referencesKey (prompt key : String) : Bool :=
  searchKey key.toList prompt.toList

/-- The key loop of ChainingInstantiateSchema.validate_chain: the first
required input key referenced by none of the prompts (the one whose check
raises), if any. -/
def firstUnreferenced (newOps : List MapOpConfig) : List String → Option String
  | [] => none
  | k :: ks =>
      if newOps.any (fun op => referencesKey op.prompt k) then
        firstUnreferenced newOps ks
      else some k

/-- The final-op output keys read by validate_chain:
`list(new_ops[-1].output_keys) if new_ops else []`. -/
def finalOutputKeys (newOps : List MapOpConfig) : List String :=
  match newOps.getLast? with
  | some op => op.output_keys
  | none => []

/-- Python `set(a) == set(b)` on string lists. -/
def sameStringSet (a b : List String) : Bool :=
  a.all (fun x => decide (x ∈ b)) && b.all (fun x => decide (x ∈ a))

/-- ChainingInstantiateSchema.validate_chain (instantiate_schemas.py lines
71-105): raise on the first required input key referenced in no prompt, then
raise if the final op's output keys are not set-equal to the expected ones. -/
def validate_chain (newOps : List MapOpConfig)
    (requiredInputKeys expectedOutputKeys : List String) : Except String Unit :=
  match firstUnreferenced newOps requiredInputKeys with
  | some k => .error ("Input key " ++ k ++ " must be referenced in at least one prompt.")
  | none =>
      if sameStringSet (finalOutputKeys newOps) expectedOutputKeys then .ok ()
      else .error "The output keys of the final op do not match the expected output keys."

def isErr {ε α : Type} : Except ε α → Bool
  | .error _ => true
  | .ok _ => false

/-! Concrete inputs used by the counterexample, failing-input and witness
theorems below. -/

def opEx : Operation := { name := some "extract", model := some "gpt-4o-mini" }

def cfgEx : Config :=
  { operations := [opEx],
    steps := [{ name := "step1", operations := some ["extract"] }],
    default_model := some "gpt-4.1",
    bypass_cache := false,
    outputPath := "plan.json" }

def nodeEx : NodeState :=
  { yamlFilePath := "plan.yaml", parsedYaml := cfgEx, book := emptyBook,
    childrenCount := 0 }

def childNodeEx : ChildNode :=
  { yamlFilePath := "plan_1_acc.yaml", parsedYaml := cfgEx, book := emptyBook }

def catalogEx : List String := ["chaining", "gleaning", "change model"]

def cfgC3 : Config :=
  { operations := [opEx],
    steps := [{ name := "step1", operations := some ["a", "b"] }],
    default_model := none,
    bypass_cache := false,
    outputPath := "out.json" }

def newOpsC3 : List Operation :=
  [{ name := some "x", model := none }, { name := some "y", model := none }]

/-! Theorems.  Helper lemmas come immediately before the claim theorem that
uses them. -/

theorem depth_le_of_mem_chain {p m : NodeRef} (h : m ∈ p.chain) :
    m.depth ≤ p.depth := by
  induction p with
  | root =>
      simp [NodeRef.chain] at h
      subst h
      exact Nat.le_refl _
  | child p i ih =>
      rw [NodeRef.chain, List.mem_cons] at h
      rcases h with h | h
      · subst h; exact Nat.le_refl _
      · exact (ih h).trans (Nat.le_succ _)

theorem child_not_mem_chain (p : NodeRef) (i : Nat) :
    NodeRef.child p i ∉ p.chain := by
  intro h
  have := depth_le_of_mem_chain h
  simp [NodeRef.depth] at this

theorem updateValueChain_value (n : NodeRef) (s : TreeState) (d : Int)
    (m : NodeRef) :
    (updateValueChain s n d).value m
      = s.value m + (if m ∈ n.chain then d else 0) := by
  induction n generalizing s with
  | root =>
      by_cases h : m = NodeRef.root <;>
        simp [updateValueChain, updateValue, NodeRef.chain, h]
  | child p i ih =>
      rw [updateValueChain, ih]
      by_cases h : m = NodeRef.child p i
      · subst h
        have hnot : NodeRef.child p i ∉ p.chain := child_not_mem_chain p i
        simp [updateValue, NodeRef.chain, hnot]
      · simp [updateValue, NodeRef.chain, h]

theorem updateValueChain_visits (n : NodeRef) (s : TreeState) (d : Int) :
    (updateValueChain s n d).visits = s.visits := by
  induction n generalizing s with
  | root => rfl
  | child p i ih => rw [updateValueChain, ih]; rfl

theorem updateVisitChain_visits (n : NodeRef) (s : TreeState) (m : NodeRef) :
    (updateVisitChain s n).visits m
      = s.visits m + (if m ∈ n.chain then 1 else 0) := by
  induction n generalizing s with
  | root =>
      by_cases h : m = NodeRef.root <;>
        simp [updateVisitChain, updateVisit, NodeRef.chain, h]
  | child p i ih =>
      rw [updateVisitChain, ih]
      by_cases h : m = NodeRef.child p i
      · subst h
        have hnot : NodeRef.child p i ∉ p.chain := child_not_mem_chain p i
        simp [updateVisit, NodeRef.chain, hnot]
      · simp [updateVisit, NodeRef.chain, h]

theorem updateVisitChain_value (n : NodeRef) (s : TreeState) :
    (updateVisitChain s n).value = s.value := by
  induction n generalizing s with
  | root => rfl
  | child p i ih => rw [updateVisitChain, ih]; rfl

theorem foldlValueChain_value (aff : List (NodeRef × Int)) (s : TreeState)
    (m : NodeRef) :
    (aff.foldl (fun st p => updateValueChain st p.1 p.2) s).value m
      = s.value m + chainDelta m aff := by
  induction aff generalizing s with
  | nil => simp [chainDelta]
  | cons hd tl ih =>
      obtain ⟨n, d⟩ := hd
      rw [List.foldl_cons, ih, updateValueChain_value, chainDelta]
      ring

theorem foldlValueChain_visits (aff : List (NodeRef × Int)) (s : TreeState) :
    (aff.foldl (fun st p => updateValueChain st p.1 p.2) s).visits
      = s.visits := by
  induction aff generalizing s with
  | nil => rfl
  | cons hd tl ih => rw [List.foldl_cons, ih, updateValueChain_visits]

/-- C1: backpropagate adds, for every (node, delta) pair of the affected map,
delta to the accumulated value of that node and of each of its ancestors (and
performs no other value updates: a node off every affected chain gets delta
contribution 0), and it increments the visit count by exactly 1 on the
simulated node and each of its ancestors and nowhere else. -/
theorem backpropagate_spec (s : TreeState) (affected : List (NodeRef × Int))
    (visitNode m : NodeRef) :
    (backpropagate s affected visitNode).value m = s.value m + chainDelta m affected ∧
      (backpropagate s affected visitNode).visits m
        = s.visits m + (if m ∈ visitNode.chain then 1 else 0) := by
  unfold backpropagate
  constructor
  · rw [updateVisitChain_value, foldlValueChain_value]
  · rw [updateVisitChain_visits, foldlValueChain_visits]

theorem opsFullyExplored_iff (b : Bookkeeping) (ops : List Operation) :
    opsFullyExplored b ops = true ↔
      ∀ op ∈ ops, 3 ≤ (b.usedAcc op.name).card ∧ 1 ≤ (b.usedCost op.name).card := by
  induction ops with
  | nil => simp [opsFullyExplored]
  | cons op rest ih =>
      by_cases hAcc : (b.usedAcc op.name).card < 3
      · simp only [opsFullyExplored, if_pos hAcc]
        constructor
        · intro h; exact absurd h (by simp)
        · intro h
          have := (h op (List.mem_cons_self op rest)).1
          omega
      · by_cases hCost : (b.usedCost op.name).card < 1
        · simp only [opsFullyExplored, if_neg hAcc, if_pos hCost]
          constructor
          · intro h; exact absurd h (by simp)
          · intro h
            have := (h op (List.mem_cons_self op rest)).2
            omega
        · simp only [opsFullyExplored, if_neg hAcc, if_neg hCost]
          rw [ih]
          constructor
          · intro h op' hop'
            rcases List.mem_cons.mp hop' with h1 | h1
            · subst h1; omega
            · exact h op' h1
          · intro h op' hop'
            exact h op' (List.mem_cons_of_mem _ hop')

/-- C2: is_fully_explored returns true exactly when the node already has at
least expansionCount children, or every operator of the node's plan has at
least 3 distinct directives used for the accuracy goal and at least 1 distinct
directive used for the cost goal. -/
theorem is_fully_explored_iff (expansionCount : Nat) (n : NodeState) :
    is_fully_explored expansionCount n = true ↔
      (expansionCount ≤ n.childrenCount ∨
        ∀ op ∈ n.parsedYaml.operations,
          3 ≤ (n.book.usedAcc op.name).card ∧ 1 ≤ (n.book.usedCost op.name).card) := by
  unfold is_fully_explored
  by_cases h : expansionCount ≤ n.childrenCount
  · simp [h]
  · simp only [if_neg h]
    rw [opsFullyExplored_iff]
    constructor
    · intro hops; exact Or.inr hops
    · intro hor
      rcases hor with hor | hor
      · exact absurd hor h
      · exact hor

theorem buildNewOps_eq_join (target0 : String) (opNames : List String)
    (ops : List String) :
    buildNewOps target0 opNames ops
      = List.flatten (List.replicate (ops.countP (fun op => op = target0)) opNames) := by
  induction ops with
  | nil => simp [buildNewOps]
  | cons op rest ih =>
      rw [buildNewOps, ih, List.countP_cons]
      by_cases h : op = target0
      · simp [h, List.replicate_succ]
      · simp [h]

/-- C3 counterexample: with a step whose operations list is ["a", "b"], new
operator names ["x", "y"] and target operator "a", update_pipeline rewrites
the step's operations to exactly ["x", "y"]: the reference "b", which is not
the target and which the claim says must remain unchanged, is dropped from
the step. -/
theorem update_pipeline_counterexample :
    (update_pipeline cfgC3 newOpsC3 "a").steps
        = [{ name := "step1", operations := some ["x", "y"] }] ∧
      "b" ∈ (["a", "b"] : List String) ∧
      ("b" : String) ≠ "a" ∧
      "b" ∉ (["x", "y"] : List String) := by
  refine ⟨rfl, by simp, by simp, by simp⟩

/-- C3 amended: update_pipeline rewrites every step that has an operations
list to the new operator names repeated once, in order, per occurrence of the
first target operator — dropping every other operation reference the step
held — and leaves steps without an operations list unchanged. -/
theorem update_pipeline_amended (cfg : Config) (newOpsList : List Operation)
    (target0 : String) :
    (update_pipeline cfg newOpsList target0).steps
      = cfg.steps.map (fun s =>
          { s with operations := s.operations.map (fun ops =>
              List.flatten (List.replicate (ops.countP (fun op => op = target0))
                (opNamesOf newOpsList))) }) := by
  unfold update_pipeline
  simp only
  apply List.map_congr_left
  intro s _
  obtain ⟨nm, sop⟩ := s
  cases sop with
  | none => rfl
  | some ops => simp [buildNewOps_eq_join]

/-- C4 (code-bug evaluation at the failing input): when the oracle names the
directive "bogus", which is not in the catalog, expand raises ValueError — an
exception distinct from the RuntimeError that signals exhaustion — but the
handlers of mcts_iteration catch only RuntimeError, so the ValueError escapes
the iteration and aborts the whole run, and the following planned iteration
never executes.  The claim (and spec section 7) requires the failure to be
recoverable at the iteration level instead. -/
theorem unknown_directive_aborts_search :
    (expand catalogEx nodeEx .acc false "bogus" ["extract"] (some [opEx])).2
        = .error (.valueError (unknownDirectiveMsg "bogus")) ∧
      PyError.valueError (unknownDirectiveMsg "bogus")
          ≠ PyError.runtimeError exhaustedMsg ∧
      mctsIteration (α := ChildNode)
          (.error (.valueError (unknownDirectiveMsg "bogus"))) (.ok childNodeEx)
        = .error (.valueError (unknownDirectiveMsg "bogus")) ∧
      runIterations (α := ChildNode)
          [(.error (.valueError (unknownDirectiveMsg "bogus")), .ok childNodeEx),
           (.ok childNodeEx, .ok childNodeEx)]
        = .error (.valueError (unknownDirectiveMsg "bogus")) := by
  refine ⟨?_, by simp, rfl, rfl⟩
  have : ("bogus" ∈ catalogEx) = False := by simp [catalogEx]
  simp [expand, this]

/-- C5 (code-bug evaluation at the failing input): with the default budget of
20 iterations and a configured wall-clock budget of 600 seconds, at iteration
0 and 601 seconds of elapsed time should_continue still returns true: the
source's wall-clock test is commented out, so the configured max_time is
never enforced, contradicting the claim (and the constructor's own
documentation of max_time). -/
theorem should_continue_ignores_time_budget :
    should_continue ⟨0, 20, some 600, 0⟩ 601 = true ∧
      (⟨0, 20, some 600, 0⟩ : SearchBudget).maxTime = some 600 ∧
      (601 : ℚ) - (⟨0, 20, some 600, 0⟩ : SearchBudget).startTime
        ≥ ((⟨0, 20, some 600, 0⟩ : SearchBudget).maxTime).getD 0 := by
  refine ⟨rfl, rfl, by norm_num⟩

theorem markAcc_usedCost (b : Bookkeeping) (op d : String) :
    (markAcc b op d).usedCost = b.usedCost := rfl

theorem markCost_usedAcc (b : Bookkeeping) (op d : String) :
    (markCost b op d).usedAcc = b.usedAcc := rfl

theorem markAcc_subset (b : Bookkeeping) (op d : String) (o : Option String) :
    b.usedAcc o ⊆ (markAcc b op d).usedAcc o := by
  intro a ha
  by_cases ho : o = some op
  · subst ho
    simp only [markAcc, if_pos rfl]
    exact Finset.mem_insert_of_mem ha
  · simp [markAcc, ho, ha]

theorem markCost_subset (b : Bookkeeping) (op d : String) (o : Option String) :
    b.usedCost o ⊆ (markCost b op d).usedCost o := by
  intro a ha
  by_cases ho : o = some op
  · subst ho
    simp only [markCost, if_pos rfl]
    exact Finset.mem_insert_of_mem ha
  · simp [markCost, ho, ha]

theorem markAcc_mem (b : Bookkeeping) (op d : String) :
    d ∈ (markAcc b op d).usedAcc (some op) := by
  simp [markAcc]

theorem markCost_mem (b : Bookkeeping) (op d : String) :
    d ∈ (markCost b op d).usedCost (some op) := by
  simp [markCost]

theorem foldl_subset_acc (f : Bookkeeping → String → Bookkeeping)
    (hpres : ∀ b x o, b.usedAcc o ⊆ (f b x).usedAcc o)
    (ops : List String) (b : Bookkeeping) (o : Option String) :
    b.usedAcc o ⊆ (ops.foldl f b).usedAcc o := by
  induction ops generalizing b with
  | nil => exact fun a ha => ha
  | cons t ts ih => exact fun a ha => ih (f b t) (hpres b t o ha)

theorem foldl_subset_cost (f : Bookkeeping → String → Bookkeeping)
    (hpres : ∀ b x o, b.usedCost o ⊆ (f b x).usedCost o)
    (ops : List String) (b : Bookkeeping) (o : Option String) :
    b.usedCost o ⊆ (ops.foldl f b).usedCost o := by
  induction ops generalizing b with
  | nil => exact fun a ha => ha
  | cons t ts ih => exact fun a ha => ih (f b t) (hpres b t o ha)

theorem foldl_mem_acc (f : Bookkeeping → String → Bookkeeping) (d : String)
    (hpres : ∀ b x o, b.usedAcc o ⊆ (f b x).usedAcc o)
    (hest : ∀ b x, d ∈ (f b x).usedAcc (some x))
    (ops : List String) (b : Bookkeeping) (op : String) (hop : op ∈ ops) :
    d ∈ (ops.foldl f b).usedAcc (some op) := by
  induction ops generalizing b with
  | nil => cases hop
  | cons t ts ih =>
      rw [List.foldl_cons]
      rcases List.mem_cons.mp hop with h | h
      · subst h
        exact foldl_subset_acc f hpres ts (f b op) (some op) (hest b op)
      · exact ih (f b t) h

theorem foldl_mem_cost (f : Bookkeeping → String → Bookkeeping) (d : String)
    (hpres : ∀ b x o, b.usedCost o ⊆ (f b x).usedCost o)
    (hest : ∀ b x, d ∈ (f b x).usedCost (some x))
    (ops : List String) (b : Bookkeeping) (op : String) (hop : op ∈ ops) :
    d ∈ (ops.foldl f b).usedCost (some op) := by
  induction ops generalizing b with
  | nil => cases hop
  | cons t ts ih =>
      rw [List.foldl_cons]
      rcases List.mem_cons.mp hop with h | h
      · subst h
        exact foldl_subset_cost f hpres ts (f b op) (some op) (hest b op)
      · exact ih (f b t) h

/-- C6: the coupled bookkeeping applied to a freshly created child records,
for the gleaning (iterative refinement) directive, "chaining" as used for the
accuracy goal on every target operator, and, for "change model", "change
model" as used for both the accuracy and the cost goal on every target
operator. -/
theorem coupled_bookkeeping_marks (targetOps : List String)
    (childBook : Bookkeeping) (op : String) (hop : op ∈ targetOps) :
    "chaining" ∈ (coupledBookkeeping "gleaning" targetOps childBook).usedAcc (some op) ∧
      "change model" ∈ (coupledBookkeeping "change model" targetOps childBook).usedAcc (some op) ∧
      "change model" ∈ (coupledBookkeeping "change model" targetOps childBook).usedCost (some op) := by
  have hglean : coupledBookkeeping "gleaning" targetOps childBook
      = targetOps.foldl (fun b op => markAcc b op "chaining") childBook := by
    rw [coupledBookkeeping, if_pos rfl]
  have hcm : coupledBookkeeping "change model" targetOps childBook
      = targetOps.foldl
          (fun b op => markCost (markAcc b op "change model") op "change model")
          childBook := by
    rw [coupledBookkeeping, if_neg (by decide), if_pos rfl]
  refine ⟨?_, ?_, ?_⟩
  · rw [hglean]
    exact foldl_mem_acc _ _ (fun b x o => markAcc_subset b x _ o)
      (fun b x => markAcc_mem b x _) targetOps childBook op hop
  · rw [hcm]
    exact foldl_mem_acc _ _
      (fun b x o => by rw [markCost_usedAcc]; exact markAcc_subset b x _ o)
      (fun b x => by rw [markCost_usedAcc]; exact markAcc_mem b x _)
      targetOps childBook op hop
  · rw [hcm]
    exact foldl_mem_cost _ _
      (fun b x o => markCost_subset (markAcc b x "change model") x _ o)
      (fun b x => markCost_mem _ x _)
      targetOps childBook op hop

theorem coupled_bookkeeping_marks_witness :
    "chaining" ∈ (coupledBookkeeping "gleaning" ["extract"] emptyBook).usedAcc (some "extract") ∧
      "change model" ∈ (coupledBookkeeping "change model" ["extract"] emptyBook).usedAcc (some "extract") ∧
      "change model" ∈ (coupledBookkeeping "change model" ["extract"] emptyBook).usedCost (some "extract") :=
  coupled_bookkeeping_marks ["extract"] emptyBook "extract" (by simp)

/-- C7: the two goal expansions of one iteration are attempted independently
from the same leaf: an empty candidate menu makes expand raise the
RuntimeError exhaustion signal, and mcts_iteration catches it per goal, so an
accuracy-goal exhaustion still lets the cost-goal child be simulated and
backpropagated (and vice versa), both successes are simulated in order, and
even a double exhaustion completes the iteration normally. -/
theorem dual_goal_expansion_independent (catalog : List String)
    (node : NodeState) (g : Goal) (directiveName : String)
    (targetOps : List String) (instResult : Option (List Operation))
    (m1 m2 : String) (a c : ChildNode) :
    (expand catalog node g true directiveName targetOps instResult).2
        = .error (.runtimeError exhaustedMsg) ∧
      mctsIteration (α := ChildNode) (.error (.runtimeError m1)) (.ok c) = .ok [c] ∧
      mctsIteration (α := ChildNode) (.ok a) (.error (.runtimeError m2)) = .ok [a] ∧
      mctsIteration (α := ChildNode) (.ok a) (.ok c) = .ok [a, c] ∧
      mctsIteration (α := ChildNode) (.error (.runtimeError m1))
          (.error (.runtimeError m2)) = .ok [] :=
  ⟨rfl, rfl, rfl, rfl, rfl⟩

/-- C8: expand never changes the expanded node's own plan: whatever the goal
and the outcome, the node that comes back has the same parsed pipeline
configuration (operations, steps, model fields, cache flag and output path)
and the same YAML path as before; only its bookkeeping and child count can
differ. -/
theorem expand_preserves_parent_plan (catalog : List String) (node : NodeState)
    (g : Goal) (menuEmpty : Bool) (directiveName : String)
    (targetOps : List String) (instResult : Option (List Operation)) :
    ((expand catalog node g menuEmpty directiveName targetOps instResult).1).parsedYaml
        = node.parsedYaml ∧
      ((expand catalog node g menuEmpty directiveName targetOps instResult).1).yamlFilePath
        = node.yamlFilePath := by
  unfold expand
  cases menuEmpty
  · by_cases hc : directiveName ∈ catalog
    · cases instResult <;> simp [hc, markTargets]
    · simp [hc]
  · exact ⟨rfl, rfl⟩

/-- C10: when the directive's instantiate call returns no new operator list,
expand raises the RuntimeError instantiation failure without attaching a
child (the node's child count is unchanged) and without touching the plan,
but the used-action marks recorded on the node before instantiation are kept,
not rolled back; the iteration handler then treats the goal as having no
leaf, so nothing is simulated for it. -/
theorem expand_instantiate_failure_keeps_marks (catalog : List String)
    (node : NodeState) (g : Goal) (directiveName : String)
    (targetOps : List String) (hdn : directiveName ∈ catalog) :
    expand catalog node g false directiveName targetOps none
        = (markTargets g node targetOps directiveName,
            .error (.runtimeError instantiateFailedMsg)) ∧
      (markTargets g node targetOps directiveName).childrenCount
          = node.childrenCount ∧
      (markTargets g node targetOps directiveName).parsedYaml = node.parsedYaml ∧
      handleTry (expand catalog node g false directiveName targetOps none).2
          = .ok none := by
  have h1 : expand catalog node g false directiveName targetOps none
      = (markTargets g node targetOps directiveName,
          .error (.runtimeError instantiateFailedMsg)) := by
    unfold expand
    simp [hdn]
  exact ⟨h1, rfl, rfl, by rw [h1]; rfl⟩


theorem expand_instantiate_failure_keeps_marks_witness :
    expand catalogEx nodeEx .acc false "chaining" ["extract"] none
        = (markTargets .acc nodeEx ["extract"] "chaining",
            .error (.runtimeError instantiateFailedMsg)) ∧
      (markTargets .acc nodeEx ["extract"] "chaining").childrenCount
          = nodeEx.childrenCount ∧
      (markTargets .acc nodeEx ["extract"] "chaining").parsedYaml
          = nodeEx.parsedYaml ∧
      handleTry (expand catalogEx nodeEx .acc false "chaining" ["extract"] none).2
          = .ok none :=
  expand_instantiate_failure_keeps_marks catalogEx nodeEx .acc "chaining"
    ["extract"] (by simp [catalogEx])

theorem firstUnreferenced_some (newOps : List MapOpConfig) (req : List String)
    (k : String) (h : firstUnreferenced newOps req = some k) :
    k ∈ req ∧ ∀ op ∈ newOps, referencesKey op.prompt k = false := by
  induction req with
  | nil => simp [firstUnreferenced] at h
  | cons k' ks ih =>
      rw [firstUnreferenced] at h
      by_cases hany : (newOps.any (fun op => referencesKey op.prompt k')) = true
      · rw [if_pos hany] at h
        obtain ⟨hk, hall⟩ := ih h
        exact ⟨List.mem_cons_of_mem _ hk, hall⟩
      · rw [if_neg hany] at h
        injection h with h
        subst h
        refine ⟨List.mem_cons_self _ _, ?_⟩
        intro op hop
        simp only [List.any_eq_true, not_exists, not_and,
          Bool.not_eq_true] at hany
        exact hany op hop

theorem firstUnreferenced_none (newOps : List MapOpConfig) (req : List String)
    (h : firstUnreferenced newOps req = none) :
    ∀ k ∈ req, ∃ op ∈ newOps, referencesKey op.prompt k = true := by
  induction req with
  | nil => intro k hk; cases hk
  | cons k' ks ih =>
      rw [firstUnreferenced] at h
      by_cases hany : (newOps.any (fun op => referencesKey op.prompt k')) = true
      · rw [if_pos hany] at h
        intro k hk
        rcases List.mem_cons.mp hk with heq | hk'
        · subst heq
          simpa using List.any_eq_true.mp hany
        · exact ih h k hk'
      · rw [if_neg hany] at h
        cases h

theorem sameStringSet_iff (a b : List String) :
    sameStringSet a b = true ↔ ∀ x : String, x ∈ a ↔ x ∈ b := by
  simp only [sameStringSet, Bool.and_eq_true, List.all_eq_true,
    decide_eq_true_eq]
  constructor
  · rintro ⟨h1, h2⟩ x
    exact ⟨fun hx => h1 x hx, fun hx => h2 x hx⟩
  · intro h
    exact ⟨fun x hx => (h x).mp hx, fun x hx => (h x).mpr hx⟩

/-- C9: validate_chain raises exactly when some required input key is
referenced, via the Jinja input-key pattern, in none of the new operators'
prompts, or the final operator's output keys are not set-equal to the
expected output keys; so a chain it accepts for a single-operator plan with
declared output keys K has final output keys set-equal to K and references
every required input key in at least one prompt. -/
theorem validate_chain_error_iff (newOps : List MapOpConfig)
    (requiredInputKeys expectedOutputKeys : List String) :
    isErr (validate_chain newOps requiredInputKeys expectedOutputKeys) = true ↔
      ((∃ k ∈ requiredInputKeys,
          ∀ op ∈ newOps, referencesKey op.prompt k = false) ∨
        ¬ (∀ x : String, x ∈ finalOutputKeys newOps ↔ x ∈ expectedOutputKeys)) := by
  unfold validate_chain
  cases hfu : firstUnreferenced newOps requiredInputKeys with
  | some k =>
      obtain ⟨hk, hall⟩ := firstUnreferenced_some newOps requiredInputKeys k hfu
      exact iff_of_true rfl (Or.inl ⟨k, hk, hall⟩)
  | none =>
      have hforall := firstUnreferenced_none newOps requiredInputKeys hfu
      have hleft : ¬ ∃ k ∈ requiredInputKeys,
          ∀ op ∈ newOps, referencesKey op.prompt k = false := by
        rintro ⟨k, hk, hall⟩
        obtain ⟨op, hop, href⟩ := hforall k hk
        rw [hall op hop] at href
        exact Bool.false_ne_true href
      by_cases hset :
          sameStringSet (finalOutputKeys newOps) expectedOutputKeys = true
      · rw [if_pos hset]
        refine iff_of_false (by simp [isErr]) ?_
        rintro (h | h)
        · exact hleft h
        · exact h ((sameStringSet_iff _ _).mp hset)
      · rw [if_neg hset]
        exact iff_of_true rfl
          (Or.inr (fun hiff => hset ((sameStringSet_iff _ _).mpr hiff)))

end DocetlMCTS
